import Mathlib

/-!
Verification of the httpclient extension's request-dispatch core
(URL decomposition, header parsing, error classification, and the
GET/POST row adapters) against its design specification.

The embedding follows src/src/http_client_extension.cpp.  C++ strings are
modelled as Lean List Char (wrapped in String at the interfaces);
std::string::find / substr / erase are modelled by explicit list functions
whose npos behaviour is mirrored through Option.
-/

namespace HttpClient

/-- Model of std::string::find(needle) : index of the first occurrence of
needle as a contiguous substring, none standing for npos. -/
def findSub (hay needle : List Char) : Option Nat :=
  match hay with
  | [] => if needle = [] then some 0 else none
  | _ :: t => if needle.isPrefixOf hay then some 0 else (findSub t needle).map (· + 1)

/-- Model of std::string::find(c) for a single character. -/
def findChar (c : Char) : List Char → Option Nat
  | [] => none
  | x :: t => if x = c then some 0 else (findChar c t).map (· + 1)

/-- The result of URL decomposition: host (the code's "domain") and path. -/
structure RequestURL where
  host : String
  path : String
  deriving DecidableEq, Repr

/-- The observable configuration of the freshly constructed
duckdb_httplib_openssl::Client after SetupHttpClient ran: the host it was
constructed with, the value passed to set_read_timeout (seconds and
microseconds) and the flag passed to set_follow_location. -/
structure HttplibClient where
  host : String
  readTimeoutSec : Nat
  readTimeoutUsec : Nat
  followLocation : Bool
  deriving DecidableEq, Repr

/-- Embedding of SetupHttpClient (src/src/http_client_extension.cpp:19-43).
It finds the first "://" and erases everything up to and including it,
then splits the remainder at the first '/': the part before is the domain,
the part from it (inclusive) is the path; with no '/', the whole remainder
is the domain and the path is "/".  The client is then built from the
domain with a 10 second read timeout and follow_location set to true. -/
def SetupHttpClient (url : String) : HttplibClient × String :=
  let mod_url : List Char :=
    match findSub url.data [':', '/', '/'] with
    | some pos => url.data.drop (pos + 3)
    | none => url.data
  let dp : List Char × List Char :=
    match findChar '/' mod_url with
    | some pos => (mod_url.take pos, mod_url.drop pos)
    | none => (mod_url, ['/'])
  ({ host := ⟨dp.1⟩, readTimeoutSec := 10, readTimeoutUsec := 0, followLocation := true },
   ⟨dp.2⟩)

/-- The RequestURL view of SetupHttpClient: the host the client is
constructed against and the path the request is issued against. -/
def decompose (url : String) : RequestURL :=
  { host := (SetupHttpClient url).1.host, path := (SetupHttpClient url).2 }

/-- Transcription of the specified decomposition algorithm (spec 4.1),
written independently of the code, for comparison with decompose: locate
the first occurrence of "://" (the least position at which it occurs)
and, if found, drop everything up to and including it; then locate the
first '/' in the remaining string: everything before it is the host,
everything from it (inclusive) is the path; if no '/' is found the host
is the entire remaining string and the path is "/". -/
def specDecompose (url : String) : RequestURL :=
  let remainder : List Char :=
    match ((List.range (url.data.length + 1)).filter
        (fun i => [':', '/', '/'].isPrefixOf (url.data.drop i))).head? with
    | some pos => url.data.drop (pos + 3)
    | none => url.data
  match remainder.findIdx? (fun c => c = '/') with
  | some pos => { host := ⟨remainder.take pos⟩, path := ⟨remainder.drop pos⟩ }
  | none => { host := ⟨remainder⟩, path := "/" }

/-- The transport error codes distinguished by the switch in
HandleHttpError; `other` stands for every enum value the switch does not
name and lands in its default branch. -/
inductive HttplibError where
  | Connection
  | BindIPAddress
  | Read
  | Write
  | ExceedRedirectCount
  | Canceled
  | SSLConnection
  | SSLLoadingCerts
  | SSLServerVerification
  | UnsupportedMultipartBoundaryChars
  | Compression
  | other (code : Nat)
  deriving DecidableEq, Repr

/-- The err_message value HandleHttpError starts from
(src/src/http_client_extension.cpp:46). -/
def errMessageInit (request_type : String) : String :=
  "HTTP " ++ request_type ++ " request failed. "

/-- Embedding of HandleHttpError (src/src/http_client_extension.cpp:45-87).
The C++ function is void and throws std::runtime_error(err_message); it is
modelled as returning some (thrown message); none would mean the function
returned normally, which no branch does. -/
def HandleHttpError (e : HttplibError) (request_type : String) : Option String :=
  match e with
  | .Connection => some (errMessageInit request_type ++ "Connection error.")
  | .BindIPAddress => some (errMessageInit request_type ++ "Failed to bind IP address.")
  | .Read => some (errMessageInit request_type ++ "Error reading response.")
  | .Write => some (errMessageInit request_type ++ "Error writing request.")
  | .ExceedRedirectCount => some (errMessageInit request_type ++ "Too many redirects.")
  | .Canceled => some (errMessageInit request_type ++ "Request was canceled.")
  | .SSLConnection => some (errMessageInit request_type ++ "SSL connection failed.")
  | .SSLLoadingCerts => some (errMessageInit request_type ++ "Failed to load SSL certificates.")
  | .SSLServerVerification => some (errMessageInit request_type ++ "SSL server verification failed.")
  | .UnsupportedMultipartBoundaryChars =>
      some (errMessageInit request_type ++ "Unsupported characters in multipart boundary.")
  | .Compression => some (errMessageInit request_type ++ "Error during compression.")
  | .other _ => some (errMessageInit request_type ++ "Unknown error.")

/-- Index separating the eleven named switch cases from the default
branch: two error codes hit the same switch case exactly when their
indices agree. -/
def kindIndex (e : HttplibError) : Nat :=
  match e with
  | .Connection => 0
  | .BindIPAddress => 1
  | .Read => 2
  | .Write => 3
  | .ExceedRedirectCount => 4
  | .Canceled => 5
  | .SSLConnection => 6
  | .SSLLoadingCerts => 7
  | .SSLServerVerification => 8
  | .UnsupportedMultipartBoundaryChars => 9
  | .Compression => 10
  | .other _ => 11

/-- Model of the while (std::getline(header_stream, header)) loop's line
splitting: getLinesAux splits at every '\n'; getline additionally yields
no final empty line when the input ends in '\n' (and no line at all on
empty input), which getLines accounts for. -/
def getLinesAux : List Char → List Char → List (List Char)
  | [], acc => [acc.reverse]
  | c :: t, acc => if c = '\n' then acc.reverse :: getLinesAux t [] else getLinesAux t (c :: acc)

/-- The list of lines std::getline produces from the given character
stream, in order. -/
def getLines (l : List Char) : List (List Char) :=
  if l = [] then []
  else if l.getLast? = some '\n' then (getLinesAux l []).dropLast else getLinesAux l []

/-- The characters erased by the trimming in the POST header loop:
horizontal whitespace, matching the C++ character set " \t". -/
def isHWs (c : Char) : Bool :=
  c = ' ' ∨ c = '\t'

/-- Model of the pair key.erase(0, key.find_first_not_of(" \t"));
key.erase(key.find_last_not_of(" \t") + 1): leading and trailing runs of
spaces and tabs are removed (erase(0, npos) on an all-whitespace string
empties it, which dropWhile reproduces). -/
def trimWs (l : List Char) : List Char :=
  ((l.dropWhile isHWs).reverse.dropWhile isHWs).reverse

/-- One iteration of the header loop body
(src/src/http_client_extension.cpp:140-150): find the first ':'; with
none the line is skipped, otherwise the line splits into the key before
the colon and the value after it, both trimmed. -/
def parseHeaderLine (header : List Char) : Option (List Char × List Char) :=
  match findChar ':' header with
  | none => none
  | some colon_pos =>
      some (trimWs (header.take colon_pos), trimWs (header.drop (colon_pos + 1)))

/-- The entry a single header line contributes to the header map, at
String level. -/
def headerEntry (header : List Char) : Option (String × String) :=
  (parseHeaderLine header).map (fun kv => (⟨kv.1⟩, ⟨kv.2⟩))

/-- Modelled from the spec: httplib.hpp (which defines the
duckdb_httplib_openssl::Headers container the loop emplaces into) is not
among the sources; per the spec the header map is an ordered mapping that
preserves parsing order, with duplicates retained and names treated
case-sensitively at parse time.  It is modelled as a list of key/value
pairs in emplace order. -/
def parseHeadersL (headers : List Char) : List (String × String) :=
  (getLines headers).filterMap headerEntry

/-- The header map built by the POST header loop from a header block
string (src/src/http_client_extension.cpp:136-151). -/
def parseHeaders (headers : String) : List (String × String) :=
  parseHeadersL headers.data

/-- The block whose lines are the given list, i.e. the lines joined with
a '\n' separator; used to state that parsing preserves line order. -/
def joinLines : List (List Char) → List Char
  | [] => []
  | [l] => l
  | l :: r :: t => l ++ '\n' :: joinLines (r :: t)

/-- What client.Get is called with in HTTPGetRequestFunction: the
configured client and the decomposed path.  The GET adapter passes no
headers and no body. -/
structure HttpGetCall where
  client : HttplibClient
  path : String
  deriving DecidableEq, Repr

/-- The call HTTPGetRequestFunction issues for a row with the given url
argument (src/src/http_client_extension.cpp:97-102). -/
def HTTPGetCallOf (url : String) : HttpGetCall :=
  { client := (SetupHttpClient url).1, path := (SetupHttpClient url).2 }

/-- What client.Post is called with in HTTPPostRequestFunction: the
configured client, the decomposed path, the parsed header map, the body
and the content type. -/
structure HttpPostCall where
  client : HttplibClient
  path : String
  header_map : List (String × String)
  body : String
  content_type : String
  deriving DecidableEq, Repr

/-- The call HTTPPostRequestFunction issues for a row with the given url,
headers and body arguments (src/src/http_client_extension.cpp:131-154). -/
def HTTPPostCallOf (url headers body : String) : HttpPostCall :=
  { client := (SetupHttpClient url).1
    path := (SetupHttpClient url).2
    header_map := parseHeaders headers
    body := body
    content_type := "application/json" }

/-- The transport's answer to one request: httplib::Result either holds a
response (status, reason, body) or no response together with an error
code. -/
inductive HttplibResult where
  | response (status : Int) (reason : String) (body : String)
  | failure (error : HttplibError)
  deriving DecidableEq, Repr

/-- Embedding of the result handling in HTTPGetRequestFunction
(src/src/http_client_extension.cpp:103-114): status 200 returns the body;
any other status throws "HTTP GET error: <status> - <reason>"; no
response goes through HandleHttpError, and only if that returned normally
would the trailing return string_t() produce the empty string. -/
def HTTPGetRequestRow (res : HttplibResult) : Except String String :=
  match res with
  | .response status reason body =>
      if status = 200 then Except.ok body
      else Except.error ("HTTP GET error: " ++ toString status ++ " - " ++ reason)
  | .failure e =>
      match HandleHttpError e "GET" with
      | some msg => Except.error msg
      | none => Except.ok ""

/-- Embedding of the result handling in HTTPPostRequestFunction
(src/src/http_client_extension.cpp:155-166), identical to the GET case up
to the request type in the messages. -/
def HTTPPostRequestRow (res : HttplibResult) : Except String String :=
  match res with
  | .response status reason body =>
      if status = 200 then Except.ok body
      else Except.error ("HTTP POST error: " ++ toString status ++ " - " ++ reason)
  | .failure e =>
      match HandleHttpError e "POST" with
      | some msg => Except.error msg
      | none => Except.ok ""

/-! Helper lemmas about the string-searching primitives. -/

/-- The character standing at the index findChar returns is the one
searched for. -/
theorem findChar_drop (c : Char) (l : List Char) (p : Nat)
    (h : findChar c l = some p) : ∃ r, l.drop p = c :: r := by
  induction l generalizing p with
  | nil => simp [findChar] at h
  | cons x t ih =>
    by_cases hx : x = c
    · simp [findChar, hx] at h
      exact ⟨t, by rw [← h]; simp [hx]⟩
    · simp [findChar, hx] at h
      obtain ⟨q, hq, rfl⟩ := h
      simpa using ih q hq

/-- findSub returns exactly the least position at which the needle
occurs as a substring: the head of the increasing list of all occurrence
positions. -/
theorem findSub_eq_head_positions (l needle : List Char) :
    findSub l needle =
      ((List.range (l.length + 1)).filter
        (fun i => needle.isPrefixOf (l.drop i))).head? := by
  induction l with
  | nil =>
    cases needle <;> simp [findSub, List.isPrefixOf, List.range_succ]
  | cons x t ih =>
    have hr : List.range ((x :: t).length + 1) =
        0 :: (List.range (t.length + 1)).map Nat.succ := by
      rw [List.length_cons, List.range_succ_eq_map]
    have hcomp :
        ((fun i => needle.isPrefixOf (List.drop i (x :: t))) ∘ Nat.succ) =
          (fun i => needle.isPrefixOf (List.drop i t)) := by
      funext i
      simp [Function.comp, List.drop_succ_cons]
    by_cases hp : needle.isPrefixOf (x :: t)
    · rw [hr, List.filter_cons]
      simp only [List.drop_zero, hp]
      simp [findSub, hp]
    · rw [hr, List.filter_cons]
      simp only [List.drop_zero, hp, Bool.false_eq_true, if_false]
      rw [List.filter_map, List.head?_map, hcomp, ← ih]
      simp [findSub, hp]

/-- findChar agrees with the standard first-index search. -/
theorem findIdx?_eq_findChar (c : Char) (l : List Char) :
    l.findIdx? (fun x => x = c) = findChar c l := by
  induction l with
  | nil => simp [findChar]
  | cons x t ih => by_cases hx : x = c <;> simp [List.findIdx?_cons, findChar, hx, ih]

/-- The code's decomposer coincides with the specified algorithm on every
input string. -/
theorem decompose_eq_specDecompose (url : String) :
    decompose url = specDecompose url := by
  simp only [decompose, SetupHttpClient, specDecompose,
    ← findSub_eq_head_positions, findIdx?_eq_findChar]
  cases hf : findSub url.data [':', '/', '/'] with
  | none =>
    cases hc : findChar '/' url.data with
    | none => simp [hf, hc]
    | some q => simp [hf, hc]
  | some pos =>
    cases hc : findChar '/' (url.data.drop (pos + 3)) with
    | none => simp [hf, hc]
    | some q => simp [hf, hc]

/-- Claim C2: for every input URL string the decomposer locates the
first occurrence of "://" and, if found, drops everything up to and
including it; it then splits the remainder at the first '/': everything
before it is the host, everything from it (inclusive) is the path, and
with no '/' remaining the host is the whole remainder and the path is
"/" (specDecompose transcribes exactly these words); in particular
scheme://host/a/b yields host "host" and path "/a/b". -/
theorem C2_url_decomposer (url : String) :
    decompose url = specDecompose url ∧
    decompose "scheme://host/a/b" = { host := "host", path := "/a/b" } :=
  ⟨decompose_eq_specDecompose url, by decide⟩

/-- Claim C7: the path component the decomposer produces is never empty
and always starts with '/'. -/
theorem C7_path_starts_with_slash (url : String) :
    (decompose url).path ≠ "" ∧ ∃ r, (decompose url).path.data = '/' :: r := by
  have key : ∃ r, (decompose url).path.data = '/' :: r := by
    simp only [decompose, SetupHttpClient]
    rcases hc : findChar '/'
        (match findSub url.data [':', '/', '/'] with
         | some pos => url.data.drop (pos + 3)
         | none => url.data) with _ | p
    · exact ⟨[], by simp [hc]⟩
    · obtain ⟨r, hr⟩ := findChar_drop '/' _ p hc
      exact ⟨r, by simp [hc, hr]⟩
  refine ⟨?_, key⟩
  obtain ⟨r, hr⟩ := key
  intro hempty
  rw [hempty] at hr
  simp at hr

/-- Claim C8: the URL decomposer is a total function into RequestURL, and
the empty string yields host "" and path "/". -/
theorem C8_decomposer_total :
    (∀ url : String, ∃ ru : RequestURL, decompose url = ru) ∧
    decompose "" = { host := "", path := "/" } :=
  ⟨fun url => ⟨decompose url, rfl⟩, by decide⟩

/-! Helper lemmas about line splitting and header parsing. -/

/-- getLinesAux always produces at least one line. -/
theorem getLinesAux_ne_nil (l acc : List Char) : getLinesAux l acc ≠ [] := by
  induction l generalizing acc with
  | nil => simp [getLinesAux]
  | cons c t ih =>
    by_cases hc : c = '\n' <;> simp [getLinesAux, hc, ih]

/-- On a newline-free stream getLinesAux yields a single line. -/
theorem getLinesAux_no_newline (l acc : List Char) (h : '\n' ∉ l) :
    getLinesAux l acc = [acc.reverse ++ l] := by
  induction l generalizing acc with
  | nil => simp [getLinesAux]
  | cons c t ih =>
    have hc : c ≠ '\n' := fun hc => h (hc ▸ List.mem_cons_self c t)
    have ht : '\n' ∉ t := fun hm => h (List.mem_cons_of_mem c hm)
    simp [getLinesAux, hc, ih _ ht]

/-- getLinesAux peels off the first newline-free line before a '\n'. -/
theorem getLinesAux_append (l r acc : List Char) (h : '\n' ∉ l) :
    getLinesAux (l ++ '\n' :: r) acc = (acc.reverse ++ l) :: getLinesAux r [] := by
  induction l generalizing acc with
  | nil => simp [getLinesAux]
  | cons c t ih =>
    have hc : c ≠ '\n' := fun hc => h (hc ▸ List.mem_cons_self c t)
    have ht : '\n' ∉ t := fun hm => h (List.mem_cons_of_mem c hm)
    simp [getLinesAux, hc, ih _ ht]

/-- getLines splits off the first line at the first '\n'. -/
theorem getLines_cons (l r : List Char) (h : '\n' ∉ l) :
    getLines (l ++ '\n' :: r) = l :: getLines r := by
  have hne : l ++ '\n' :: r ≠ [] := by simp
  by_cases hr : r = []
  · subst hr
    have hlast : (l ++ '\n' :: ([] : List Char)).getLast? = some '\n' := by simp
    rw [getLines, if_neg hne, if_pos hlast, getLinesAux_append l [] [] h]
    simp [getLines, getLinesAux]
  · have hlast : (l ++ '\n' :: r).getLast? = r.getLast? := by
      rw [List.getLast?_append_of_ne_nil l (by simp)]
      have : '\n' :: r = ['\n'] ++ r := rfl
      rw [this, List.getLast?_append_of_ne_nil ['\n'] hr]
    by_cases hnl : r.getLast? = some '\n'
    · rw [getLines, if_neg hne, hlast, if_pos hnl, getLinesAux_append l r [] h,
          getLines, if_neg hr, if_pos hnl]
      cases haux : getLinesAux r [] with
      | nil => exact absurd haux (getLinesAux_ne_nil r [])
      | cons x xs => simp
    · rw [getLines, if_neg hne, hlast, if_neg hnl, getLinesAux_append l r [] h,
          getLines, if_neg hr, if_neg hnl]
      simp

/-- A newline-free nonempty stream is a single line. -/
theorem getLines_single (l : List Char) (h : '\n' ∉ l) (hne : l ≠ []) :
    getLines l = [l] := by
  have hlast : l.getLast? ≠ some '\n' := by
    intro hc
    exact h (List.mem_of_mem_getLast? (by rw [hc]; simp))
  rw [getLines, if_neg hne, if_neg hlast, getLinesAux_no_newline l [] h]
  simp

/-- Parsing a joined block processes exactly its lines, in order. -/
theorem parseHeadersL_joined (ls : List (List Char)) (h : ∀ l ∈ ls, '\n' ∉ l) :
    parseHeadersL (joinLines ls) = ls.filterMap headerEntry := by
  induction ls with
  | nil => rfl
  | cons l t ih =>
    cases t with
    | nil =>
      by_cases hl : l = []
      · subst hl
        simp [joinLines, parseHeadersL, getLines, headerEntry, parseHeaderLine, findChar]
      · rw [joinLines]
        rw [parseHeadersL, getLines_single l (h l (by simp)) hl]
    | cons r u =>
      have hl : '\n' ∉ l := h l (by simp)
      have ht : ∀ x ∈ r :: u, '\n' ∉ x := fun x hx => h x (List.mem_cons_of_mem l hx)
      rw [joinLines, parseHeadersL, getLines_cons _ _ hl, List.filterMap_cons]
      have ihx := ih ht
      rw [parseHeadersL] at ihx
      cases he : headerEntry l <;> simp [he, ihx, List.filterMap_cons]

/-- The filterMap form of header parsing coincides with filtering the
lines that contain a colon and splitting each at its first colon. -/
theorem filterMap_headerEntry_eq (ls : List (List Char)) :
    ls.filterMap headerEntry =
      (ls.filter (fun l => (findChar ':' l).isSome)).map
        (fun l =>
          ((⟨trimWs (l.take ((findChar ':' l).getD 0))⟩ : String),
           (⟨trimWs (l.drop ((findChar ':' l).getD 0 + 1))⟩ : String))) := by
  induction ls with
  | nil => rfl
  | cons l t ih =>
    cases hc : findChar ':' l with
    | none => simp [List.filterMap_cons, headerEntry, parseHeaderLine, hc, ih]
    | some p => simp [List.filterMap_cons, headerEntry, parseHeaderLine, hc, ih]

/-- Claim C3: the header deserializer splits the block into lines, skips
every line without a colon, and splits every other line at its first
colon into a key and value trimmed of spaces and tabs; "garbage\nA: 1"
parses to the single entry A, 1. -/
theorem C3_header_deserializer (block : String) :
    parseHeaders block =
      ((getLines block.data).filter (fun l => (findChar ':' l).isSome)).map
        (fun l =>
          ((⟨trimWs (l.take ((findChar ':' l).getD 0))⟩ : String),
           (⟨trimWs (l.drop ((findChar ':' l).getD 0 + 1))⟩ : String))) ∧
    parseHeaders "garbage\nA: 1" = [("A", "1")] :=
  ⟨filterMap_headerEntry_eq _, by decide⟩

/-- Claim C6: the header map preserves the order of the source lines
(modelled from the spec for the container, see parseHeadersL): parsing
the block joining any newline-free lines yields the entries in source
order; keys keep their case and duplicates are retained in order. -/
theorem C6_header_order (ls : List (List Char)) (h : ∀ l ∈ ls, '\n' ∉ l) :
    parseHeadersL (joinLines ls) = ls.filterMap headerEntry ∧
    parseHeaders "B: 2\nA: 1" = [("B", "2"), ("A", "1")] ∧
    parseHeaders "A: 1\na: 2\nA: 3" = [("A", "1"), ("a", "2"), ("A", "3")] :=
  ⟨parseHeadersL_joined ls h, by decide, by decide⟩

/-- Witness for C6 at a two-line block whose keys are in reverse
alphabetical order. -/
theorem C6_header_order_witness :
    parseHeadersL (joinLines [['B', ':', ' ', '2'], ['A', ':', ' ', '1']]) =
      [("B", "2"), ("A", "1")] := by
  have h := C6_header_order [['B', ':', ' ', '2'], ['A', ':', ' ', '1']] (by decide)
  rw [h.1]
  decide

/-- Left cancellation for string concatenation, via the data lists. -/
theorem strAppendCancel (a b c : String) (h : a ++ b = a ++ c) : b = c := by
  apply String.ext
  have hd := congrArg String.data h
  rw [String.data_append, String.data_append] at hd
  exact List.append_cancel_left hd

/-- Claim C1: the GET adapter returns the body exactly on status 200,
raises an error with the numeric status and the reason phrase on every
other status, and raises the classified message on a transport failure. -/
theorem C1_get_adapter (status : Int) (reason body : String) :
    (status = 200 → HTTPGetRequestRow (.response status reason body) = .ok body) ∧
    (status ≠ 200 → HTTPGetRequestRow (.response status reason body) =
      .error ("HTTP GET error: " ++ toString status ++ " - " ++ reason)) ∧
    (∀ e : HttplibError, ∃ msg, HandleHttpError e "GET" = some msg ∧
      HTTPGetRequestRow (.failure e) = .error msg) := by
  refine ⟨fun h => by simp [HTTPGetRequestRow, h], fun h => by simp [HTTPGetRequestRow, h],
    fun e => ?_⟩
  cases e <;> exact ⟨_, rfl, rfl⟩

/-- Witness for C1 at status 200 and status 404. -/
theorem C1_get_adapter_witness :
    HTTPGetRequestRow (.response 200 "OK" "hello") = .ok "hello" ∧
    HTTPGetRequestRow (.response 404 "Not Found" "x") =
      .error ("HTTP GET error: " ++ toString (404 : Int) ++ " - " ++ "Not Found") :=
  ⟨(C1_get_adapter 200 "OK" "hello").1 rfl,
   (C1_get_adapter 404 "Not Found" "x").2.1 (by decide)⟩

/-- Claim C4: the error classifier is a total mapping in which the eleven
named codes get pairwise distinct messages (two codes share a message
only when they hit the same switch case), every unrecognized code gets
the Unknown message, and a connection error reports a connection
failure rather than Unknown. -/
theorem C4_error_classifier (rt : String) :
    (∀ e e' : HttplibError, HandleHttpError e rt = HandleHttpError e' rt →
      kindIndex e = kindIndex e') ∧
    (∀ n : Nat, HandleHttpError (.other n) rt =
      some (errMessageInit rt ++ "Unknown error.")) ∧
    HandleHttpError .Connection rt = some (errMessageInit rt ++ "Connection error.") ∧
    HandleHttpError .Connection rt ≠ HandleHttpError (.other 0) rt := by
  refine ⟨?_, fun n => rfl, rfl, ?_⟩
  · intro e e' h
    cases e <;> cases e' <;>
      first
        | rfl
        | (exfalso
           simp only [HandleHttpError, Option.some.injEq] at h
           exact absurd (strAppendCancel _ _ _ h) (by decide))
  · intro h
    simp only [HandleHttpError, Option.some.injEq] at h
    exact absurd (strAppendCancel _ _ _ h) (by decide)

/-- Witness for C4: the injectivity conjunct applied at the connection
code, and the concrete connection-vs-unknown separation. -/
theorem C4_error_classifier_witness :
    kindIndex .Connection = kindIndex .Connection ∧
    HandleHttpError .Connection "GET" ≠ HandleHttpError (.other 0) "GET" :=
  ⟨(C4_error_classifier "GET").1 .Connection .Connection rfl,
   (C4_error_classifier "GET").2.2.2⟩

/-- Claim C5: the POST adapter forwards to the transport exactly the
parsed header entries, the body unchanged, and always the content type
application/json; with headers "X-Test: 1" and body "\x7b\x7d" exactly one
header entry is forwarded. -/
theorem C5_post_forwarding (url headers body : String) :
    (HTTPPostCallOf url headers body).header_map = parseHeaders headers ∧
    (HTTPPostCallOf url headers body).body = body ∧
    (HTTPPostCallOf url headers body).content_type = "application/json" ∧
    (HTTPPostCallOf url "X-Test: 1" "\x7b\x7d").header_map = [("X-Test", "1")] ∧
    (HTTPPostCallOf url "X-Test: 1" "\x7b\x7d").body = "\x7b\x7d" :=
  ⟨rfl, rfl, rfl, by show parseHeaders "X-Test: 1" = [("X-Test", "1")]; decide, rfl⟩

/-- Claim C9: for every invocation of either adapter the freshly
constructed client is configured with a 10 second read timeout and with
redirect following enabled. -/
theorem C9_client_configuration (url headers body : String) :
    (HTTPGetCallOf url).client.readTimeoutSec = 10 ∧
    (HTTPGetCallOf url).client.readTimeoutUsec = 0 ∧
    (HTTPGetCallOf url).client.followLocation = true ∧
    (HTTPPostCallOf url headers body).client.readTimeoutSec = 10 ∧
    (HTTPPostCallOf url headers body).client.readTimeoutUsec = 0 ∧
    (HTTPPostCallOf url headers body).client.followLocation = true :=
  ⟨rfl, rfl, rfl, rfl, rfl, rfl⟩

/-- Claim C10: HandleHttpError raises on every transport error code, so
on a transport failure both adapters raise and never reach the trailing
return of the empty fallback string. -/
theorem C10_error_handler_always_raises :
    (∀ (e : HttplibError) (rt : String), (HandleHttpError e rt).isSome = true) ∧
    (∀ e : HttplibError, ∃ msg, HTTPGetRequestRow (.failure e) = .error msg) ∧
    (∀ e : HttplibError, ∃ msg, HTTPPostRequestRow (.failure e) = .error msg) := by
  refine ⟨fun e rt => ?_, fun e => ?_, fun e => ?_⟩ <;> cases e <;>
    first
      | rfl
      | exact ⟨_, rfl⟩

end HttpClient
